import Mathlib

/-!
Verification of the slice-sampling core of `3d-image-renderer`.

The embedding follows the source files:
  * `src/app/sampleSlice.ts` (`sampleSlice`, `sampleColor`, `getStepLength`)
  * `src/app/Octree.ts` (packed octree values)
  * `src/app/shaders/F_CAST_OCTREE_SLICE.glsl` (`mainImage`'s ray-plane setup)

JavaScript numbers on the code paths modelled here are either exact IEEE
integers or real-valued quantities; both are modelled as `ℝ` / `ℕ` / `ℤ`.
The 32-bit integer coercions performed by JavaScript's bitwise operators
(`<<`, `>>>`, `&`, `|`) are modelled explicitly via `% 2^32`.
-/

namespace Renderer3D

/-- World-space vector with components `x`, `y`, `z`; models gl-matrix `Vec3`
(whose numeric indices 0, 1, 2 are the `x`, `y`, `z` fields). -/
@[ext]
structure Vec3 where
  x : ℝ
  y : ℝ
  z : ℝ

instance : Sub Vec3 :=
  ⟨fun a b => ⟨a.x - b.x, a.y - b.y, a.z - b.z⟩⟩

/-- JavaScript `ToUint32`: interpret an integer as its low 32 bits. -/
def toUint32 (n : ℤ) : ℕ := (n % (2 ^ 32 : ℤ)).toNat

/-- JavaScript `ToInt32`: interpret an integer as a signed 32-bit value. -/
def toInt32 (n : ℤ) : ℤ :=
  if toUint32 n < 2 ^ 31 then (toUint32 n : ℤ) else (toUint32 n : ℤ) - 2 ^ 32

/-- JavaScript's 32-bit left shift `a << b`: both operands are coerced to
32 bits and the shift count is taken mod 32; the result is a signed
32-bit value.  (`sampleSlice.ts` uses `1 << depth` and `1 << currentDepth`.) -/
def jsShl (a b : ℤ) : ℤ := toInt32 ((toUint32 a * 2 ^ (toUint32 b % 32) : ℕ) : ℤ)

/-- Packed octree value, from the docblock in `src/app/Octree.ts`:
`const value = (index << 8) | opacity`, interpreted as a 32-bit word. -/
def pack (opacity childIndex : ℕ) : ℕ := (childIndex <<< 8) ||| opacity

/-- Source: `const opacity = value & 0xff` (`sampleSlice.ts` line 248).  JavaScript's
`&` reads only the low 32 bits, and `&& 0xff` only the low 8, so the
`% 2^32` coercion is a no-op and is omitted. -/
def decodeOpacity (value : ℕ) : ℕ := value &&& 0xff

/-- Source: `const nodeIndex = value >>> 8` (`sampleSlice.ts` line 249); JavaScript's
`>>>` coerces its operand to 32 bits first. -/
def decodeChildIndex (value : ℕ) : ℕ := (value % 2 ^ 32) >>> 8

/-- Source: `const isLeafNode = nodeIndex === 0` (`sampleSlice.ts` line 250). -/
def isLeafNode (value : ℕ) : Prop := decodeChildIndex value = 0

/-- Embeds `getStepLength` (`sampleSlice.ts` lines 311-319):

    const depthScale = Math.sqrt(3) / ((1 << depth) * 8)
    return new Vec3(
      Math.sqrt(1 + rayDirection[1] ** 2 + rayDirection[2] ** 2) * depthScale,
      Math.sqrt(1 + rayDirection[0] ** 2 + rayDirection[2] ** 2) * depthScale,
      Math.sqrt(1 + rayDirection[0] ** 2 + rayDirection[1] ** 2) * depthScale)

`1 << depth` is JavaScript's 32-bit shift, modelled by `jsShl`. -/
noncomputable def getStepLength (rayDirection : Vec3) (depth : ℕ) : Vec3 :=
  let depthScale : ℝ := Real.sqrt 3 / ((jsShl 1 depth : ℤ) * 8 : ℤ)
  ⟨Real.sqrt (1 + rayDirection.y ^ 2 + rayDirection.z ^ 2) * depthScale,
   Real.sqrt (1 + rayDirection.x ^ 2 + rayDirection.z ^ 2) * depthScale,
   Real.sqrt (1 + rayDirection.x ^ 2 + rayDirection.y ^ 2) * depthScale⟩

/-- Applying `ToUint32` to a natural number reduces it mod `2^32`. -/
theorem toUint32_natCast (n : ℕ) : toUint32 (n : ℤ) = n % 2 ^ 32 := by
  unfold toUint32
  omega

/-- For `0 ≤ d ≤ 30` the JavaScript shift `1 << d` agrees with `2 ^ d`. -/
theorem jsShl_one_eq_two_pow {d : ℕ} (hd : d ≤ 30) : jsShl 1 (d : ℤ) = 2 ^ d := by
  have h1 : toUint32 1 = 1 := by unfold toUint32; decide
  have h2 : toUint32 (d : ℤ) = d := by
    rw [toUint32_natCast, Nat.mod_eq_of_lt (by omega)]
  unfold jsShl
  rw [h1, h2, Nat.mod_eq_of_lt (by omega), one_mul]
  have hlt : 2 ^ d < 2 ^ 31 := Nat.pow_lt_pow_right (by norm_num) (by omega)
  have h3 : toUint32 ((2 ^ d : ℕ) : ℤ) = 2 ^ d := by
    rw [toUint32_natCast, Nat.mod_eq_of_lt (lt_trans hlt (by norm_num))]
  unfold toInt32
  rw [h3, if_pos hlt]
  push_cast
  ring

/-- At `depth = 31` the JavaScript shift overflows to the negative value
`-2^31`. -/
theorem jsShl_one_31 : jsShl 1 (31 : ℤ) = -(2 ^ 31) := by decide

theorem decodeOpacity_le (value : ℕ) : decodeOpacity value ≤ 255 := by
  unfold decodeOpacity
  exact Nat.and_le_right

theorem decodeOpacity_pack {opacity : ℕ} (childIndex : ℕ) (ho : opacity < 256) :
    decodeOpacity (pack opacity childIndex) = opacity := by
  unfold decodeOpacity pack
  apply Nat.eq_of_testBit_eq
  intro i
  have h255 : (0xff : ℕ) = 2 ^ 8 - 1 := by norm_num
  simp only [Nat.testBit_and, Nat.testBit_or, Nat.testBit_shiftLeft, h255,
    Nat.testBit_two_pow_sub_one]
  by_cases hi : i < 8
  · have h8 : decide (8 ≤ i) = false := by simp; omega
    simp [h8, hi]
  · have ho' : opacity.testBit i = false := by
      apply Nat.testBit_lt_two_pow
      calc opacity < 2 ^ 8 := ho
        _ ≤ 2 ^ i := Nat.pow_le_pow_right (by norm_num) (by omega)
    simp [hi, ho']

theorem pack_lt_two_pow_32 {opacity childIndex : ℕ} (ho : opacity < 256)
    (hc : childIndex < 2 ^ 24) : pack opacity childIndex < 2 ^ 32 := by
  unfold pack
  apply Nat.or_lt_two_pow
  · rw [Nat.shiftLeft_eq]
    omega
  · omega

theorem decodeChildIndex_pack {opacity childIndex : ℕ} (ho : opacity < 256)
    (hc : childIndex < 2 ^ 24) :
    decodeChildIndex (pack opacity childIndex) = childIndex := by
  unfold decodeChildIndex
  rw [Nat.mod_eq_of_lt (pack_lt_two_pow_32 ho hc)]
  unfold pack
  apply Nat.eq_of_testBit_eq
  intro i
  simp only [Nat.testBit_shiftRight, Nat.testBit_or, Nat.testBit_shiftLeft]
  have h8 : decide (8 ≤ 8 + i) = true := by simp
  have ho' : opacity.testBit (8 + i) = false := by
    apply Nat.testBit_lt_two_pow
    calc opacity < 2 ^ 8 := ho
      _ ≤ 2 ^ (8 + i) := Nat.pow_le_pow_right (by norm_num) (by omega)
  simp [h8, ho']

/-- C3: packing an `(opacity, childIndex)` pair and decoding it with the code's
bit operations returns the original pair, and the packed value is a leaf
exactly when `childIndex = 0`, equivalently exactly when the value is
below 256. -/
theorem pack_round_trip (opacity childIndex : ℕ) (ho : opacity ≤ 255)
    (hc : childIndex < 2 ^ 24) :
    decodeOpacity (pack opacity childIndex) = opacity ∧
    decodeChildIndex (pack opacity childIndex) = childIndex ∧
    (isLeafNode (pack opacity childIndex) ↔ childIndex = 0) ∧
    (isLeafNode (pack opacity childIndex) ↔ pack opacity childIndex < 256) := by
  have ho' : opacity < 256 := by omega
  have hdec := decodeChildIndex_pack ho' hc
  refine ⟨decodeOpacity_pack childIndex ho', hdec, ?_, ?_⟩
  · unfold isLeafNode
    rw [hdec]
  · unfold isLeafNode
    rw [hdec]
    constructor
    · rintro rfl
      unfold pack
      rw [Nat.zero_shiftLeft]
      simpa using ho'
    · intro hlt
      have := decodeChildIndex_pack ho' hc
      unfold decodeChildIndex at this
      rw [Nat.mod_eq_of_lt (pack_lt_two_pow_32 ho' hc), Nat.shiftRight_eq_div_pow] at this
      omega

/-- C3 witness: the example value from the Octree docblock,
`2080 = (8 << 8) | 32`. -/
theorem pack_round_trip_witness :
    decodeOpacity (pack 32 8) = 32 ∧
    decodeChildIndex (pack 32 8) = 8 ∧
    (isLeafNode (pack 32 8) ↔ (8 : ℕ) = 0) ∧
    (isLeafNode (pack 32 8) ↔ pack 32 8 < 256) :=
  pack_round_trip 32 8 (by norm_num) (by norm_num)

/-- Helper: `getStepLength` written with real-number exponentials, valid in the range
where the JavaScript shift does not overflow. -/
theorem getStepLength_eq (rayDirection : Vec3) {depth : ℕ} (hd : depth ≤ 30) :
    getStepLength rayDirection depth =
      ⟨Real.sqrt (1 + rayDirection.y ^ 2 + rayDirection.z ^ 2) * Real.sqrt 3 / (2 ^ depth * 8),
       Real.sqrt (1 + rayDirection.x ^ 2 + rayDirection.z ^ 2) * Real.sqrt 3 / (2 ^ depth * 8),
       Real.sqrt (1 + rayDirection.x ^ 2 + rayDirection.y ^ 2) * Real.sqrt 3 / (2 ^ depth * 8)⟩ := by
  unfold getStepLength
  rw [jsShl_one_eq_two_pow hd]
  rw [Vec3.mk.injEq]
  push_cast
  refine ⟨by ring, by ring, by ring⟩

/-- C1 counterexample: at `depth = 31` the JavaScript expression
`(1 << depth) * 8` is negative (`1 << 31` overflows to `-2^31`), so the step
component is the negation of the value the claim specifies. -/
theorem getStepLength_spec_cex :
    (getStepLength ⟨0, 0, 0⟩ 31).x ≠
      Real.sqrt (1 + (0 : ℝ) ^ 2 + (0 : ℝ) ^ 2) * Real.sqrt 3 / (2 ^ 31 * 8) := by
  have h3 : 0 < Real.sqrt 3 := Real.sqrt_pos.mpr (by norm_num)
  have hL : (getStepLength ⟨0, 0, 0⟩ 31).x = Real.sqrt 3 / (-(2 ^ 31) * 8) := by
    have hj : jsShl 1 ((31 : ℕ) : ℤ) = -(2 ^ 31) := by decide
    unfold getStepLength
    rw [hj]
    push_cast
    norm_num [Real.sqrt_one]
  have hR : Real.sqrt (1 + (0 : ℝ) ^ 2 + (0 : ℝ) ^ 2) * Real.sqrt 3 / (2 ^ 31 * 8) =
      Real.sqrt 3 / (2 ^ 31 * 8) := by
    norm_num [Real.sqrt_one]
  rw [hL, hR]
  have hneg : Real.sqrt 3 / (-(2 ^ 31) * 8) < 0 := by
    apply div_neg_of_pos_of_neg h3
    norm_num
  have hpos : (0 : ℝ) < Real.sqrt 3 / (2 ^ 31 * 8) := by
    apply div_pos h3
    norm_num
  exact ne_of_lt (lt_trans hneg hpos)

/-- C1 (amended): for `0 ≤ depth ≤ 30` (the range where the JavaScript
`1 << depth` does not overflow), each component of `getStepLength` is
`sqrt(1 + d1² + d2²) * sqrt(3) / (2^depth * 8)` where `d1, d2` are the two
ray-direction components orthogonal to that axis. -/
theorem getStepLength_spec (rayDirection : Vec3) (depth : ℕ) (hd : depth ≤ 30) :
    (getStepLength rayDirection depth).x =
      Real.sqrt (1 + rayDirection.y ^ 2 + rayDirection.z ^ 2) * Real.sqrt 3 / (2 ^ depth * 8) ∧
    (getStepLength rayDirection depth).y =
      Real.sqrt (1 + rayDirection.x ^ 2 + rayDirection.z ^ 2) * Real.sqrt 3 / (2 ^ depth * 8) ∧
    (getStepLength rayDirection depth).z =
      Real.sqrt (1 + rayDirection.x ^ 2 + rayDirection.y ^ 2) * Real.sqrt 3 / (2 ^ depth * 8) := by
  rw [getStepLength_eq rayDirection hd]
  exact ⟨rfl, rfl, rfl⟩

/-- C1 witness at `rayDirection = (0,0,-1)`, `depth = 0`. -/
theorem getStepLength_spec_witness :
    (getStepLength ⟨0, 0, -1⟩ 0).x =
      Real.sqrt (1 + (0 : ℝ) ^ 2 + (-1 : ℝ) ^ 2) * Real.sqrt 3 / (2 ^ 0 * 8) ∧
    (getStepLength ⟨0, 0, -1⟩ 0).y =
      Real.sqrt (1 + (0 : ℝ) ^ 2 + (-1 : ℝ) ^ 2) * Real.sqrt 3 / (2 ^ 0 * 8) ∧
    (getStepLength ⟨0, 0, -1⟩ 0).z =
      Real.sqrt (1 + (0 : ℝ) ^ 2 + (0 : ℝ) ^ 2) * Real.sqrt 3 / (2 ^ 0 * 8) :=
  getStepLength_spec ⟨0, 0, -1⟩ 0 (by norm_num)

/-- C2 counterexample: for `rayDirection = (0,0,-1)` the `x` component of the
step is `sqrt(2) * sqrt(3) / 8`, not `sqrt(3) / 8`: the three components are
not all equal to `sqrt(3)/(2^depth*8)`. -/
theorem stepLength_axis_aligned_cex :
    ¬ ((getStepLength ⟨0, 0, -1⟩ 0).x = Real.sqrt 3 / (2 ^ 0 * 8) ∧
       (getStepLength ⟨0, 0, -1⟩ 0).y = Real.sqrt 3 / (2 ^ 0 * 8) ∧
       (getStepLength ⟨0, 0, -1⟩ 0).z = Real.sqrt 3 / (2 ^ 0 * 8)) := by
  rw [getStepLength_eq ⟨0, 0, -1⟩ (by norm_num)]
  rintro ⟨hx, -, -⟩
  norm_num at hx
  have hx' : Real.sqrt 2 * Real.sqrt 3 = Real.sqrt 3 := by
    field_simp at hx
  have hsq : (Real.sqrt 2 * Real.sqrt 3) ^ 2 = (Real.sqrt 3) ^ 2 := by rw [hx']
  rw [mul_pow, Real.sq_sqrt (by norm_num : (0:ℝ) ≤ 2),
    Real.sq_sqrt (by norm_num : (0:ℝ) ≤ 3)] at hsq
  norm_num at hsq

/-- C2 (amended): for `rayDirection = (0,0,-1)` and `0 ≤ depth ≤ 30`, the step
is `(sqrt(2)*sqrt(3)/(2^depth*8), sqrt(2)*sqrt(3)/(2^depth*8),
sqrt(3)/(2^depth*8))`: the `x` and `y` components are equal, and carry an
extra `sqrt(2)` factor relative to the `z` component. -/
theorem stepLength_axis_aligned (depth : ℕ) (hd : depth ≤ 30) :
    (getStepLength ⟨0, 0, -1⟩ depth).x = Real.sqrt 2 * Real.sqrt 3 / (2 ^ depth * 8) ∧
    (getStepLength ⟨0, 0, -1⟩ depth).y = Real.sqrt 2 * Real.sqrt 3 / (2 ^ depth * 8) ∧
    (getStepLength ⟨0, 0, -1⟩ depth).z = Real.sqrt 3 / (2 ^ depth * 8) := by
  rw [getStepLength_eq ⟨0, 0, -1⟩ hd]
  refine ⟨by norm_num, by norm_num, by norm_num [Real.sqrt_one]⟩

/-- C2 witness at `depth = 0`. -/
theorem stepLength_axis_aligned_witness :
    (getStepLength ⟨0, 0, -1⟩ 0).x = Real.sqrt 2 * Real.sqrt 3 / (2 ^ 0 * 8) ∧
    (getStepLength ⟨0, 0, -1⟩ 0).y = Real.sqrt 2 * Real.sqrt 3 / (2 ^ 0 * 8) ∧
    (getStepLength ⟨0, 0, -1⟩ 0).z = Real.sqrt 3 / (2 ^ 0 * 8) :=
  stepLength_axis_aligned 0 (by norm_num)

/-- Source: `const octantSize = 1.0 / (1 << currentDepth)` (`sampleSlice.ts` line 225). -/
noncomputable def octantSizeAt (currentDepth : ℕ) : ℝ := 1 / ((jsShl 1 currentDepth : ℤ) : ℝ)

/-- Source: `const nodeSize = octantSize / 2` (`sampleSlice.ts` line 229). -/
noncomputable def nodeSizeAt (currentDepth : ℕ) : ℝ := octantSizeAt currentDepth / 2

/-- One axis of the child-selection test
(`samplePoint.x >= nodeOrigin.x + nodeSize ? 1 : 0`, lines 235-237). -/
noncomputable def childHalf (coord origin nodeSize : ℝ) : ℕ :=
  if coord ≥ origin + nodeSize then 1 else 0

/-- Source: `const nearestNodeIndexWithinOctant = x + (y << 1) + (z << 2)` (line 242). -/
noncomputable def slotOf (samplePoint nodeOrigin : Vec3) (nodeSize : ℝ) : ℕ :=
  childHalf samplePoint.x nodeOrigin.x nodeSize +
    (childHalf samplePoint.y nodeOrigin.y nodeSize <<< 1) +
    (childHalf samplePoint.z nodeOrigin.z nodeSize <<< 2)

/-- Source: `const value = octree[octantIndex + nearestNodeIndexWithinOctant]` (line
245), for the descent state `s = (octantIndex, nodeOrigin)`.  Reading a JS
array out of range yields `undefined`, which the bitwise decode operations
coerce to `0`; this is `List.getD _ _ 0`. -/
noncomputable def readAt (octree : List ℕ) (samplePoint : Vec3) (currentDepth : ℕ)
    (s : ℕ × Vec3) : ℕ :=
  octree.getD (s.1 + slotOf samplePoint s.2 (nodeSizeAt currentDepth)) 0

/-- One iteration of the descent loop (lines 214-277) as a state
transformer: the next `(octantIndex, nodeOrigin)` pair.  `octantIndex`
becomes the decoded `nodeIndex`; `nodeOrigin` advances by `nodeSize` on each
axis whose child-selection bit is 1. -/
noncomputable def descendStep (octree : List ℕ) (samplePoint : Vec3) (currentDepth : ℕ)
    (s : ℕ × Vec3) : ℕ × Vec3 :=
  let nodeSize := nodeSizeAt currentDepth
  let x := childHalf samplePoint.x s.2.x nodeSize
  let y := childHalf samplePoint.y s.2.y nodeSize
  let z := childHalf samplePoint.z s.2.z nodeSize
  let value := readAt octree samplePoint currentDepth s
  (decodeChildIndex value,
   ⟨s.2.x + (if x = 1 then nodeSize else 0),
    s.2.y + (if y = 1 then nodeSize else 0),
    s.2.z + (if z = 1 then nodeSize else 0)⟩)

/-- The descent loop of `sampleColor` (lines 214-292).  `rem` is the number
of remaining iterations (`targetDepth - currentDepth`); when it reaches 0 the
loop exits and the code returns `octree[octantIndex] & 0xff` (line 282); a
leaf value returns its opacity immediately (lines 257-266). -/
noncomputable def sampleDescend (octree : List ℕ) (samplePoint : Vec3) :
    ℕ → ℕ → ℕ × Vec3 → ℕ
  | _currentDepth, 0, s => decodeOpacity (octree.getD s.1 0)
  | currentDepth, rem + 1, s =>
    let value := readAt octree samplePoint currentDepth s
    if decodeChildIndex value = 0 then decodeOpacity value
    else sampleDescend octree samplePoint (currentDepth + 1) rem
      (descendStep octree samplePoint currentDepth s)

/-- Embeds `sampleColor` (`sampleSlice.ts` lines 171-293): guards for the unit cube
(lines 176-186), then the descent from `octantIndex = 0`,
`nodeOrigin = (0,0,0)` (lines 200-292). -/
noncomputable def sampleColor (octree : List ℕ) (samplePoint : Vec3)
    (targetDepth : ℕ) : ℕ :=
  if samplePoint.x < 0 ∨ samplePoint.x > 1 then 0
  else if samplePoint.y < 0 ∨ samplePoint.y > 1 then 0
  else if samplePoint.z < 0 ∨ samplePoint.z > 1 then 0
  else sampleDescend octree samplePoint 0 targetDepth (0, ⟨0, 0, 0⟩)

/-- The sample point lies in the octree's unit cube (no guard fires). -/
def inCube (p : Vec3) : Prop :=
  0 ≤ p.x ∧ p.x ≤ 1 ∧ 0 ≤ p.y ∧ p.y ≤ 1 ∧ 0 ≤ p.z ∧ p.z ≤ 1

/-- Iterating `descendStep` `k` times from depth `cd` and state `s`. -/
noncomputable def iterState (octree : List ℕ) (samplePoint : Vec3) :
    ℕ → ℕ × Vec3 → ℕ → ℕ × Vec3
  | _cd, s, 0 => s
  | cd, s, k + 1 =>
    iterState octree samplePoint (cd + 1) (descendStep octree samplePoint cd s) k

/-- Descent state after `k` loop iterations starting from the root. -/
noncomputable def stateAt (octree : List ℕ) (samplePoint : Vec3) (k : ℕ) : ℕ × Vec3 :=
  iterState octree samplePoint 0 (0, ⟨0, 0, 0⟩) k

theorem sampleDescend_le (octree : List ℕ) (p : Vec3) :
    ∀ (rem cd : ℕ) (s : ℕ × Vec3), sampleDescend octree p cd rem s ≤ 255 := by
  intro rem
  induction rem with
  | zero =>
    intro cd s
    simp only [sampleDescend]
    exact decodeOpacity_le _
  | succ n ih =>
    intro cd s
    simp only [sampleDescend]
    split
    · exact decodeOpacity_le _
    · exact ih _ _

theorem sampleColor_le (octree : List ℕ) (p : Vec3) (t : ℕ) :
    sampleColor octree p t ≤ 255 := by
  unfold sampleColor
  split_ifs
  · omega
  · omega
  · omega
  · exact sampleDescend_le octree p t 0 _

theorem sampleColor_outside (octree : List ℕ) (p : Vec3) (t : ℕ)
    (h : p.x < 0 ∨ p.x > 1 ∨ p.y < 0 ∨ p.y > 1 ∨ p.z < 0 ∨ p.z > 1) :
    sampleColor octree p t = 0 := by
  unfold sampleColor
  split_ifs with h1 h2 h3
  · rfl
  · rfl
  · rfl
  · exfalso
    rcases h with h | h | h | h | h | h <;> tauto

theorem sampleColor_of_inCube (octree : List ℕ) (p : Vec3) (t : ℕ) (h : inCube p) :
    sampleColor octree p t = sampleDescend octree p 0 t (0, ⟨0, 0, 0⟩) := by
  obtain ⟨h1, h2, h3, h4, h5, h6⟩ := h
  unfold sampleColor
  rw [if_neg (by rintro (h' | h') <;> linarith),
    if_neg (by rintro (h' | h') <;> linarith),
    if_neg (by rintro (h' | h') <;> linarith)]

/-- If the descent reads non-leaf values for `d` steps and then a leaf, the
loop returns that leaf's opacity, for any remaining-iteration budget `> d`. -/
theorem sampleDescend_leaf (octree : List ℕ) (p : Vec3) :
    ∀ (d cd rem : ℕ) (s : ℕ × Vec3),
    (∀ k, k < d →
      decodeChildIndex (readAt octree p (cd + k) (iterState octree p cd s k)) ≠ 0) →
    decodeChildIndex (readAt octree p (cd + d) (iterState octree p cd s d)) = 0 →
    d < rem →
    sampleDescend octree p cd rem s =
      decodeOpacity (readAt octree p (cd + d) (iterState octree p cd s d)) := by
  intro d
  induction d with
  | zero =>
    intro cd rem s _ hleaf hrem
    obtain ⟨r, rfl⟩ : ∃ r, rem = r + 1 := ⟨rem - 1, by omega⟩
    simp only [iterState, Nat.add_zero] at hleaf ⊢
    simp only [sampleDescend]
    rw [if_pos hleaf]
  | succ d ih =>
    intro cd rem s hnl hleaf hrem
    obtain ⟨r, rfl⟩ : ∃ r, rem = r + 1 := ⟨rem - 1, by omega⟩
    have h0 : decodeChildIndex (readAt octree p cd s) ≠ 0 := by
      have h := hnl 0 (by omega)
      simpa [iterState] using h
    have hstep : iterState octree p cd s (d + 1) =
        iterState octree p (cd + 1) (descendStep octree p cd s) d := by
      simp only [iterState]
    have harith : cd + (d + 1) = (cd + 1) + d := by omega
    simp only [sampleDescend]
    rw [if_neg h0, hstep, harith]
    apply ih (cd + 1) r (descendStep octree p cd s) ?_ ?_ (by omega)
    · intro k hk
      have h := hnl (k + 1) (by omega)
      have hstep' : iterState octree p cd s (k + 1) =
          iterState octree p (cd + 1) (descendStep octree p cd s) k := by
        simp only [iterState]
      have harith' : cd + (k + 1) = (cd + 1) + k := by omega
      rw [hstep', harith'] at h
      exact h
    · rw [← harith, ← hstep]
      exact hleaf

/-- Shared form of the leaf-short-circuit property, phrased from the root. -/
theorem sampleColor_leaf_aux (octree : List ℕ) (p : Vec3) (d : ℕ)
    (hin : inCube p)
    (hnl : ∀ k, k < d →
      decodeChildIndex (readAt octree p k (stateAt octree p k)) ≠ 0)
    (hleaf : decodeChildIndex (readAt octree p d (stateAt octree p d)) = 0) :
    ∀ t, d < t →
      sampleColor octree p t = decodeOpacity (readAt octree p d (stateAt octree p d)) := by
  intro t ht
  rw [sampleColor_of_inCube octree p t hin]
  unfold stateAt at hnl hleaf ⊢
  have h := sampleDescend_leaf octree p d 0 t (0, ⟨0, 0, 0⟩) ?_ ?_ ht
  · rw [h, Nat.zero_add]
  · intro k hk
    rw [Nat.zero_add]
    exact hnl k hk
  · rw [Nat.zero_add]
    exact hleaf

/-- C6: for an in-cube point whose descent reads branch nodes at depths
`0..d-1` and a leaf at depth `d`, `sampleColor` returns that leaf's opacity
for every `targetDepth > d` — the result does not depend on `targetDepth`. -/
theorem sampleColor_leaf_short_circuit (octree : List ℕ) (p : Vec3) (d : ℕ)
    (hin : inCube p)
    (hnl : ∀ k, k < d →
      decodeChildIndex (readAt octree p k (stateAt octree p k)) ≠ 0)
    (hleaf : decodeChildIndex (readAt octree p d (stateAt octree p d)) = 0) :
    ∀ t, d < t →
      sampleColor octree p t = decodeOpacity (readAt octree p d (stateAt octree p d)) :=
  sampleColor_leaf_aux octree p d hin hnl hleaf

/-- C6 witness: a single-leaf octree; the leaf at depth 0 short-circuits a
descent with `targetDepth = 5`. -/
theorem sampleColor_leaf_short_circuit_witness :
    sampleColor [5] ⟨1/4, 1/4, 1/4⟩ 5 =
      decodeOpacity (readAt [5] ⟨1/4, 1/4, 1/4⟩ 0 (stateAt [5] ⟨1/4, 1/4, 1/4⟩ 0)) := by
  have hgen : ∀ n, decodeChildIndex (List.getD [5] n 0) = 0 := by
    intro n
    match n with
    | 0 => decide
    | n + 1 =>
      have : List.getD [5] (n + 1) 0 = 0 := by simp [List.getD]
      rw [this]
      decide
  exact sampleColor_leaf_short_circuit [5] ⟨1/4, 1/4, 1/4⟩ 0
    (by constructor <;> norm_num)
    (fun k hk => absurd hk (by omega))
    (by unfold readAt; exact hgen _)
    5 (by omega)

/-- C7: whenever a coordinate of the sample point equals
`nodeOrigin + nodeSize` exactly, the child-selection bit for that axis is 1
(the point goes to the upper child), on every axis and at every depth. -/
theorem boundary_upper_child (p nodeOrigin : Vec3) (currentDepth : ℕ) :
    (p.x = nodeOrigin.x + nodeSizeAt currentDepth →
      slotOf p nodeOrigin (nodeSizeAt currentDepth) % 2 = 1) ∧
    (p.y = nodeOrigin.y + nodeSizeAt currentDepth →
      slotOf p nodeOrigin (nodeSizeAt currentDepth) / 2 % 2 = 1) ∧
    (p.z = nodeOrigin.z + nodeSizeAt currentDepth →
      slotOf p nodeOrigin (nodeSizeAt currentDepth) / 4 % 2 = 1) := by
  have hbx : childHalf p.x nodeOrigin.x (nodeSizeAt currentDepth) = 0 ∨
      childHalf p.x nodeOrigin.x (nodeSizeAt currentDepth) = 1 := by
    unfold childHalf; split <;> simp
  have hby : childHalf p.y nodeOrigin.y (nodeSizeAt currentDepth) = 0 ∨
      childHalf p.y nodeOrigin.y (nodeSizeAt currentDepth) = 1 := by
    unfold childHalf; split <;> simp
  have hbz : childHalf p.z nodeOrigin.z (nodeSizeAt currentDepth) = 0 ∨
      childHalf p.z nodeOrigin.z (nodeSizeAt currentDepth) = 1 := by
    unfold childHalf; split <;> simp
  have hslot : slotOf p nodeOrigin (nodeSizeAt currentDepth) =
      childHalf p.x nodeOrigin.x (nodeSizeAt currentDepth) +
        childHalf p.y nodeOrigin.y (nodeSizeAt currentDepth) * 2 +
        childHalf p.z nodeOrigin.z (nodeSizeAt currentDepth) * 4 := by
    unfold slotOf
    rw [Nat.shiftLeft_eq, Nat.shiftLeft_eq]
  refine ⟨?_, ?_, ?_⟩
  · intro h
    have hx1 : childHalf p.x nodeOrigin.x (nodeSizeAt currentDepth) = 1 := by
      simp [childHalf, h]
    rw [hslot, hx1]
    rcases hby with hy | hy <;> rcases hbz with hz | hz <;> omega
  · intro h
    have hy1 : childHalf p.y nodeOrigin.y (nodeSizeAt currentDepth) = 1 := by
      simp [childHalf, h]
    rw [hslot, hy1]
    rcases hbx with hx | hx <;> rcases hbz with hz | hz <;> omega
  · intro h
    have hz1 : childHalf p.z nodeOrigin.z (nodeSizeAt currentDepth) = 1 := by
      simp [childHalf, h]
    rw [hslot, hz1]
    rcases hbx with hx | hx <;> rcases hby with hy | hy <;> omega

/-- C7 witness: the point `(1/2, 1/2, 1/2)` sits exactly on the boundary of
the root's children and is classified into the upper child on all axes. -/
theorem boundary_upper_child_witness :
    slotOf ⟨1/2, 1/2, 1/2⟩ ⟨0, 0, 0⟩ (nodeSizeAt 0) % 2 = 1 ∧
    slotOf ⟨1/2, 1/2, 1/2⟩ ⟨0, 0, 0⟩ (nodeSizeAt 0) / 2 % 2 = 1 ∧
    slotOf ⟨1/2, 1/2, 1/2⟩ ⟨0, 0, 0⟩ (nodeSizeAt 0) / 4 % 2 = 1 := by
  have hns : nodeSizeAt 0 = 1 / 2 := by
    have hj : jsShl 1 ((0 : ℕ) : ℤ) = 1 := by decide
    unfold nodeSizeAt octantSizeAt
    rw [hj]
    norm_num
  have h := boundary_upper_child ⟨1/2, 1/2, 1/2⟩ ⟨0, 0, 0⟩ 0
  exact ⟨h.1 (by rw [hns]; norm_num), h.2.1 (by rw [hns]; norm_num),
    h.2.2 (by rw [hns]; norm_num)⟩

/-- C5: any sample point with a coordinate outside `[0,1]` yields 0 for any
octree and any target depth. -/
theorem sampleColor_out_of_cube (octree : List ℕ) (p : Vec3) (targetDepth : ℕ)
    (h : p.x < 0 ∨ p.x > 1 ∨ p.y < 0 ∨ p.y > 1 ∨ p.z < 0 ∨ p.z > 1) :
    sampleColor octree p targetDepth = 0 :=
  sampleColor_outside octree p targetDepth h

/-- C5 witness at the out-of-cube point `(2, 0, 0)`. -/
theorem sampleColor_out_of_cube_witness : sampleColor [] ⟨2, 0, 0⟩ 3 = 0 :=
  sampleColor_out_of_cube [] ⟨2, 0, 0⟩ 3 (Or.inr (Or.inl (by norm_num)))

/-- C9: an out-of-range read during the descent decodes to opacity 0 with
childIndex 0 (a fully transparent leaf), and `sampleColor` then returns 0 for
that branch of the descent —`sampleColor` is total for any octree length. -/
theorem sampleColor_oob_read (octree : List ℕ) (p : Vec3) (d t : ℕ)
    (hin : inCube p)
    (hnl : ∀ k, k < d →
      decodeChildIndex (readAt octree p k (stateAt octree p k)) ≠ 0)
    (hoob : octree.length ≤
      (stateAt octree p d).1 + slotOf p (stateAt octree p d).2 (nodeSizeAt d))
    (hdt : d < t) :
    decodeOpacity (readAt octree p d (stateAt octree p d)) = 0 ∧
    decodeChildIndex (readAt octree p d (stateAt octree p d)) = 0 ∧
    sampleColor octree p t = 0 := by
  have hread : readAt octree p d (stateAt octree p d) = 0 := by
    unfold readAt
    exact List.getD_eq_default _ _ hoob
  have h1 : decodeOpacity (readAt octree p d (stateAt octree p d)) = 0 := by
    rw [hread]; decide
  have h2 : decodeChildIndex (readAt octree p d (stateAt octree p d)) = 0 := by
    rw [hread]; decide
  refine ⟨h1, h2, ?_⟩
  rw [sampleColor_leaf_aux octree p d hin hnl h2 t hdt]
  exact h1

/-- C9 witness: the empty octree; the very first read is out of range and the
sample returns 0. -/
theorem sampleColor_oob_read_witness :
    decodeOpacity (readAt [] ⟨0, 0, 0⟩ 0 (stateAt [] ⟨0, 0, 0⟩ 0)) = 0 ∧
    decodeChildIndex (readAt [] ⟨0, 0, 0⟩ 0 (stateAt [] ⟨0, 0, 0⟩ 0)) = 0 ∧
    sampleColor [] ⟨0, 0, 0⟩ 1 = 0 :=
  sampleColor_oob_read [] ⟨0, 0, 0⟩ 0 1
    (by constructor <;> norm_num)
    (fun k hk => absurd hk (by omega))
    (by simp)
    (by omega)

/-- Number of iterations the descent loop actually executes. -/
noncomputable def sampleDescendIters (octree : List ℕ) (samplePoint : Vec3) :
    ℕ → ℕ → ℕ × Vec3 → ℕ
  | _cd, 0, _s => 0
  | cd, rem + 1, s =>
    if decodeChildIndex (readAt octree samplePoint cd s) = 0 then 1
    else 1 + sampleDescendIters octree samplePoint (cd + 1) rem
      (descendStep octree samplePoint cd s)

/-- Number of `sampleColor` calls made by `sampleSlice`'s triple loop
(`sampleSlice.ts` lines 112-134). -/
def sampleSliceSampleCount : ℕ :=
  (List.range 8).foldl (fun n _xIndex =>
    (List.range 8).foldl (fun n _yIndex =>
      (List.range 8).foldl (fun n _zIndex => n + 1) n) n) 0

theorem sampleDescendIters_le (octree : List ℕ) (p : Vec3) :
    ∀ (rem cd : ℕ) (s : ℕ × Vec3), sampleDescendIters octree p cd rem s ≤ rem := by
  intro rem
  induction rem with
  | zero =>
    intro cd s
    simp [sampleDescendIters]
  | succ n ih =>
    intro cd s
    simp only [sampleDescendIters]
    split
    · omega
    · have h := ih (cd + 1) (descendStep octree p cd s)
      omega

/-- C10: the descent loop of `sampleColor` runs at most `targetDepth`
iterations for every octree (malformed or cyclic ones included), and
`sampleSlice` performs exactly 512 samples. -/
theorem bounded_descent :
    (∀ (octree : List ℕ) (p : Vec3) (targetDepth : ℕ),
      sampleDescendIters octree p 0 targetDepth (0, ⟨0, 0, 0⟩) ≤ targetDepth) ∧
    sampleSliceSampleCount = 512 :=
  ⟨fun octree p targetDepth => sampleDescendIters_le octree p targetDepth 0 _,
   by simp [sampleSliceSampleCount, List.range_succ]⟩

/-- Body of `sampleSlice`'s innermost loop (`sampleSlice.ts` lines 114-131):
compute the sample point `sliceOrigin + (xIndex*step.x, yIndex*step.y,
zIndex*step.z)`, sample the octree there, and store the color at
`xIndex | (yIndex << 3) | (zIndex << 6)`.  A `Uint32Array` store truncates
to 32 bits and ignores out-of-range indices, hence `Array.setD` and
`% 2^32`. -/
noncomputable def sliceWriteAt (octree : List ℕ) (sliceOrigin step : Vec3)
    (depth xIndex yIndex zIndex : ℕ) (slice : Array ℕ) : Array ℕ :=
  let nodeOrigin : Vec3 :=
    ⟨sliceOrigin.x + (xIndex : ℝ) * step.x,
     sliceOrigin.y + (yIndex : ℝ) * step.y,
     sliceOrigin.z + (zIndex : ℝ) * step.z⟩
  let nodeIndex := xIndex ||| (yIndex <<< 3) ||| (zIndex <<< 6)
  slice.setD nodeIndex (sampleColor octree nodeOrigin depth % 2 ^ 32)

/-- Embeds `sampleSlice` (`sampleSlice.ts` lines 61-142): fills a 512-entry
`Uint32Array` of zeros by looping over `xIndex`, `yIndex`, `zIndex` in
`0..7`, writing one sample per iteration. -/
noncomputable def sampleSlice (octree : List ℕ) (sliceOrigin rayDirection : Vec3)
    (depth : ℕ) : Array ℕ :=
  let step := getStepLength rayDirection depth
  (List.range 8).foldl (fun slice (xIndex : ℕ) =>
    (List.range 8).foldl (fun slice (yIndex : ℕ) =>
      (List.range 8).foldl (fun slice (zIndex : ℕ) =>
        sliceWriteAt octree sliceOrigin step depth xIndex yIndex zIndex slice)
        slice)
      slice)
    (Array.mkArray 512 0)

theorem foldl_rec {α β : Type} (P : α → Prop) (f : α → β → α) :
    ∀ (l : List β) (init : α), P init → (∀ a b, P a → P (f a b)) →
      P (l.foldl f init) := by
  intro l
  induction l with
  | nil =>
    intro init h _
    exact h
  | cons b t ih =>
    intro init h hs
    exact ih (f init b) (hs init b h) hs

theorem getD_setD_le (a : Array ℕ) (i j v : ℕ) (hv : v ≤ 255)
    (ha : ∀ k, a.getD k 0 ≤ 255) : (a.setD i v).getD j 0 ≤ 255 := by
  by_cases hij : i = j
  · subst hij
    rw [Array.getD_eq_get?, Array.getD_get?_setD]
    split
    · exact hv
    · omega
  · have hget : (a.setD i v)[j]? = a[j]? := by
      unfold Array.setD
      split
      next h => exact Array.getElem?_set_ne a ⟨i, h⟩ v hij
      next h => rfl
    rw [Array.getD_eq_get?, hget, ← Array.getD_eq_get?]
    exact ha j

theorem sliceWriteAt_size (octree : List ℕ) (sliceOrigin step : Vec3)
    (depth xIndex yIndex zIndex : ℕ) (slice : Array ℕ) :
    (sliceWriteAt octree sliceOrigin step depth xIndex yIndex zIndex slice).size =
      slice.size := by
  unfold sliceWriteAt
  simp

theorem sliceWriteAt_le (octree : List ℕ) (sliceOrigin step : Vec3)
    (depth xIndex yIndex zIndex : ℕ) (slice : Array ℕ)
    (ha : ∀ k, slice.getD k 0 ≤ 255) :
    ∀ k, (sliceWriteAt octree sliceOrigin step depth xIndex yIndex zIndex
      slice).getD k 0 ≤ 255 := by
  intro k
  unfold sliceWriteAt
  apply getD_setD_le _ _ _ _ ?_ ha
  have h1 := sampleColor_le octree
    ⟨sliceOrigin.x + (xIndex : ℝ) * step.x,
     sliceOrigin.y + (yIndex : ℝ) * step.y,
     sliceOrigin.z + (zIndex : ℝ) * step.z⟩ depth
  have h2 := Nat.mod_le (sampleColor octree
    ⟨sliceOrigin.x + (xIndex : ℝ) * step.x,
     sliceOrigin.y + (yIndex : ℝ) * step.y,
     sliceOrigin.z + (zIndex : ℝ) * step.z⟩ depth) (2 ^ 32)
  omega

/-- C4: `sampleSlice` always produces a buffer of exactly 512 entries, every
entry is in `[0, 255]`, and samples taken outside the unit cube contribute
the value 0. -/
theorem sampleSlice_complete (octree : List ℕ) (sliceOrigin rayDirection : Vec3)
    (depth : ℕ) :
    (sampleSlice octree sliceOrigin rayDirection depth).size = 512 ∧
    (∀ i : ℕ, (sampleSlice octree sliceOrigin rayDirection depth).getD i 0 ≤ 255) ∧
    (∀ p : Vec3, (p.x < 0 ∨ p.x > 1 ∨ p.y < 0 ∨ p.y > 1 ∨ p.z < 0 ∨ p.z > 1) →
      sampleColor octree p depth = 0) := by
  have hmain : (sampleSlice octree sliceOrigin rayDirection depth).size = 512 ∧
      ∀ i : ℕ, (sampleSlice octree sliceOrigin rayDirection depth).getD i 0 ≤ 255 := by
    unfold sampleSlice
    apply foldl_rec (fun (a : Array ℕ) => a.size = 512 ∧ ∀ i, a.getD i 0 ≤ 255)
    · refine ⟨by simp, fun i => ?_⟩
      rw [Array.getD_eq_get?, Array.getElem?_mkArray]
      split <;> simp
    · intro a xIndex ha
      apply foldl_rec (fun (a : Array ℕ) => a.size = 512 ∧ ∀ i, a.getD i 0 ≤ 255) _ _ _ ha
      intro a' yIndex ha'
      apply foldl_rec (fun (a : Array ℕ) => a.size = 512 ∧ ∀ i, a.getD i 0 ≤ 255) _ _ _ ha'
      intro a'' zIndex ha''
      refine ⟨?_, sliceWriteAt_le _ _ _ _ _ _ _ _ ha''.2⟩
      rw [sliceWriteAt_size]
      exact ha''.1
  exact ⟨hmain.1, hmain.2, fun p hp => sampleColor_outside octree p depth hp⟩

/-- C4 witness at a concrete slice. -/
theorem sampleSlice_complete_witness :
    (sampleSlice [] ⟨0, 0, 0⟩ ⟨0, 0, -1⟩ 0).size = 512 ∧
    (sampleSlice [] ⟨0, 0, 0⟩ ⟨0, 0, -1⟩ 0).getD 0 0 ≤ 255 ∧
    sampleColor [] ⟨2, 0, 0⟩ 0 = 0 :=
  ⟨(sampleSlice_complete [] ⟨0, 0, 0⟩ ⟨0, 0, -1⟩ 0).1,
   (sampleSlice_complete [] ⟨0, 0, 0⟩ ⟨0, 0, -1⟩ 0).2.1 0,
   (sampleSlice_complete [] ⟨0, 0, 0⟩ ⟨0, 0, -1⟩ 0).2.2 ⟨2, 0, 0⟩
     (Or.inr (Or.inl (by norm_num)))⟩

theorem Vec3.sub_def (a b : Vec3) : a - b = ⟨a.x - b.x, a.y - b.y, a.z - b.z⟩ := rfl

/-- GLSL `dot` for 3-vectors. -/
def dot (a b : Vec3) : ℝ := a.x * b.x + a.y * b.y + a.z * b.z

/-- GLSL `length`. -/
noncomputable def glslLength (v : Vec3) : ℝ := Real.sqrt (dot v v)

/-- GLSL `normalize` (undefined by GLSL on the zero vector; here division by
zero yields 0). -/
noncomputable def glslNormalize (v : Vec3) : Vec3 :=
  ⟨v.x / glslLength v, v.y / glslLength v, v.z / glslLength v⟩

/-- Shader `F_CAST_OCTREE_SLICE.glsl` lines 51-57: pixel coordinate to normalized
device coordinates, `ndc = (fragCoord / uResolution) * 2 - 1`. -/
noncomputable def castNdc (uResolution fragCoord : ℝ × ℝ) : ℝ × ℝ :=
  (fragCoord.1 / uResolution.1 * 2 - 1, fragCoord.2 / uResolution.2 * 2 - 1)

/-- Lines 66-79: `clipPos = vec4(ndc, -1, 1)`,
`viewPos = inverse(uProjection) * clipPos`, `viewPos /= viewPos.w`. -/
noncomputable def castViewPos (uProjection : Matrix (Fin 4) (Fin 4) ℝ)
    (uResolution fragCoord : ℝ × ℝ) : Fin 4 → ℝ :=
  let ndc := castNdc uResolution fragCoord
  let clipPos : Fin 4 → ℝ := ![ndc.1, ndc.2, -1, 1]
  let viewPos := uProjection⁻¹.mulVec clipPos
  fun i => viewPos i / viewPos 3

/-- The camera-space ray vector before normalization (`viewPos.xyz`). -/
noncomputable def castViewDir (uProjection : Matrix (Fin 4) (Fin 4) ℝ)
    (uResolution fragCoord : ℝ × ℝ) : Vec3 :=
  ⟨castViewPos uProjection uResolution fragCoord 0,
   castViewPos uProjection uResolution fragCoord 1,
   castViewPos uProjection uResolution fragCoord 2⟩

/-- Line 88: `rayDirection = normalize(viewPos.xyz)`. -/
noncomputable def castRayDirection (uProjection : Matrix (Fin 4) (Fin 4) ℝ)
    (uResolution fragCoord : ℝ × ℝ) : Vec3 :=
  glslNormalize (castViewDir uProjection uResolution fragCoord)

/-- Line 116: `sliceOriginCamera = uView * vec4(uSliceOrigin, 1.0)`. -/
noncomputable def sliceOriginCamera (uView : Matrix (Fin 4) (Fin 4) ℝ)
    (uSliceOrigin : Vec3) : Fin 4 → ℝ :=
  uView.mulVec ![uSliceOrigin.x, uSliceOrigin.y, uSliceOrigin.z, 1]

/-- Lines 121-124: `normal = rayDirection`,
`denomenator = dot(rayDirection, normal)`. -/
noncomputable def castDenominator (uProjection : Matrix (Fin 4) (Fin 4) ℝ)
    (uResolution fragCoord : ℝ × ℝ) : ℝ :=
  dot (castRayDirection uProjection uResolution fragCoord)
    (castRayDirection uProjection uResolution fragCoord)

/-- Lines 121-128: `anyPointOnPlane = sliceOriginCamera.xyz`,
`rayOrigin = vec3(0)`,
`t = dot(anyPointOnPlane - rayOrigin, normal) / denomenator`. -/
noncomputable def castT (uView uProjection : Matrix (Fin 4) (Fin 4) ℝ)
    (uSliceOrigin : Vec3) (uResolution fragCoord : ℝ × ℝ) : ℝ :=
  let anyPointOnPlane : Vec3 :=
    ⟨sliceOriginCamera uView uSliceOrigin 0,
     sliceOriginCamera uView uSliceOrigin 1,
     sliceOriginCamera uView uSliceOrigin 2⟩
  let rayOrigin : Vec3 := ⟨0, 0, 0⟩
  let normal := castRayDirection uProjection uResolution fragCoord
  dot (anyPointOnPlane - rayOrigin) normal /
    castDenominator uProjection uResolution fragCoord

theorem castViewDir_example :
    castViewDir (1 : Matrix (Fin 4) (Fin 4) ℝ) (2, 2) (1, 1) = ⟨0, 0, -1⟩ := by
  unfold castViewDir castViewPos castNdc
  rw [inv_one]
  rw [Vec3.mk.injEq]
  norm_num [Matrix.one_mulVec, Matrix.cons_val_zero, Matrix.cons_val_one,
    Matrix.head_cons, Matrix.cons_val_two, Matrix.cons_val_three,
    Matrix.vecHead, Matrix.vecTail]

theorem castRayDirection_example :
    castRayDirection (1 : Matrix (Fin 4) (Fin 4) ℝ) (2, 2) (1, 1) = ⟨0, 0, -1⟩ := by
  unfold castRayDirection glslNormalize glslLength
  rw [castViewDir_example]
  rw [Vec3.mk.injEq]
  norm_num [dot, Real.sqrt_one]

theorem castDenominator_example :
    castDenominator (1 : Matrix (Fin 4) (Fin 4) ℝ) (2, 2) (1, 1) = 1 := by
  unfold castDenominator
  rw [castRayDirection_example]
  norm_num [dot]

/-- C8 counterexample: with identity view and projection matrices, the center
pixel, and slice origin `(0,0,1)` (in front of the octree but behind the
camera's view direction), the computed ray parameter `t` is `-1 < 0`: the
claim that `t` is never negative fails. -/
theorem castT_neg_cex :
    castT (1 : Matrix (Fin 4) (Fin 4) ℝ) 1 ⟨0, 0, 1⟩ (2, 2) (1, 1) < 0 := by
  have hso : sliceOriginCamera (1 : Matrix (Fin 4) (Fin 4) ℝ) ⟨0, 0, 1⟩ =
      ![0, 0, 1, 1] := by
    unfold sliceOriginCamera
    rw [Matrix.one_mulVec]
  unfold castT
  rw [hso, castRayDirection_example, castDenominator_example]
  norm_num [dot, Vec3.sub_def, Matrix.cons_val_zero, Matrix.cons_val_one,
    Matrix.head_cons, Matrix.cons_val_two, Matrix.cons_val_three,
    Matrix.vecHead, Matrix.vecTail]

/-- C8 (amended): whenever the un-projected camera-space ray vector is
nonzero, the denominator `dot(v, n)` equals 1 (in particular it is never
zero); but `t` equals the dot product of the camera-space slice origin with
the ray direction, which is negative whenever the transformed slice origin
lies behind the camera — `t` is not never-negative for arbitrary view
matrices and slice origins. -/
theorem castT_spec (uProjection : Matrix (Fin 4) (Fin 4) ℝ)
    (uResolution fragCoord : ℝ × ℝ)
    (h : castViewDir uProjection uResolution fragCoord ≠ ⟨0, 0, 0⟩) :
    castDenominator uProjection uResolution fragCoord = 1 ∧
    ∀ (uView : Matrix (Fin 4) (Fin 4) ℝ) (uSliceOrigin : Vec3),
      castT uView uProjection uSliceOrigin uResolution fragCoord =
        dot (⟨sliceOriginCamera uView uSliceOrigin 0,
              sliceOriginCamera uView uSliceOrigin 1,
              sliceOriginCamera uView uSliceOrigin 2⟩ - ⟨0, 0, 0⟩)
          (castRayDirection uProjection uResolution fragCoord) := by
  have hvne : (castViewDir uProjection uResolution fragCoord).x ≠ 0 ∨
      (castViewDir uProjection uResolution fragCoord).y ≠ 0 ∨
      (castViewDir uProjection uResolution fragCoord).z ≠ 0 := by
    by_contra hc
    push_neg at hc
    exact h (by ext <;> simp [hc.1, hc.2.1, hc.2.2])
  have hv : 0 < dot (castViewDir uProjection uResolution fragCoord)
      (castViewDir uProjection uResolution fragCoord) := by
    unfold dot
    rcases hvne with hx | hy | hz
    · nlinarith [mul_self_pos.mpr hx,
        mul_self_nonneg (castViewDir uProjection uResolution fragCoord).y,
        mul_self_nonneg (castViewDir uProjection uResolution fragCoord).z]
    · nlinarith [mul_self_pos.mpr hy,
        mul_self_nonneg (castViewDir uProjection uResolution fragCoord).x,
        mul_self_nonneg (castViewDir uProjection uResolution fragCoord).z]
    · nlinarith [mul_self_pos.mpr hz,
        mul_self_nonneg (castViewDir uProjection uResolution fragCoord).x,
        mul_self_nonneg (castViewDir uProjection uResolution fragCoord).y]
  have hL : glslLength (castViewDir uProjection uResolution fragCoord) *
      glslLength (castViewDir uProjection uResolution fragCoord) =
      dot (castViewDir uProjection uResolution fragCoord)
        (castViewDir uProjection uResolution fragCoord) :=
    Real.mul_self_sqrt (le_of_lt hv)
  have hL0 : glslLength (castViewDir uProjection uResolution fragCoord) ≠ 0 := by
    unfold glslLength
    exact ne_of_gt (Real.sqrt_pos.mpr hv)
  have hden : castDenominator uProjection uResolution fragCoord = 1 := by
    unfold castDenominator castRayDirection glslNormalize
    unfold dot at hv hL ⊢
    field_simp
    linarith [hL]
  refine ⟨hden, fun uView uSliceOrigin => ?_⟩
  unfold castT
  rw [hden, div_one]

/-- C8 witness: the amended statement instantiated at identity matrices, the
center pixel, and slice origin `(0,0,1)`. -/
theorem castT_spec_witness :
    castDenominator (1 : Matrix (Fin 4) (Fin 4) ℝ) (2, 2) (1, 1) = 1 ∧
    castT (1 : Matrix (Fin 4) (Fin 4) ℝ) 1 ⟨0, 0, 1⟩ (2, 2) (1, 1) =
      dot (⟨sliceOriginCamera (1 : Matrix (Fin 4) (Fin 4) ℝ) ⟨0, 0, 1⟩ 0,
            sliceOriginCamera (1 : Matrix (Fin 4) (Fin 4) ℝ) ⟨0, 0, 1⟩ 1,
            sliceOriginCamera (1 : Matrix (Fin 4) (Fin 4) ℝ) ⟨0, 0, 1⟩ 2⟩ - ⟨0, 0, 0⟩)
        (castRayDirection (1 : Matrix (Fin 4) (Fin 4) ℝ) (2, 2) (1, 1)) := by
  have h := castT_spec (1 : Matrix (Fin 4) (Fin 4) ℝ) (2, 2) (1, 1)
    (by rw [castViewDir_example]; simp [Vec3.mk.injEq])
  exact ⟨h.1, h.2 1 ⟨0, 0, 1⟩⟩

end Renderer3D
